import Mathlib

/-!
Shallow embedding of the DIAMONDS nested-sampling core
(`src/source/NestedSampler.cpp`, `src/source/Results.cpp`) over the real
numbers.  Doubles are modelled as elements of `ℝ`; the C++
`numeric_limits<double>::lowest()` sentinel is modelled as the exact real
value of the smallest finite double.  Components of the repository whose
implementations are not part of the analysed sources (the constrained
drawing routine of the multi-ellipsoid sampler, the clusterer, the priors,
the likelihood, and the generic math utilities) are modelled as explicit
parameters/oracles, each marked in its doc comment.
-/

set_option maxHeartbeats 1000000

noncomputable section

namespace Diamonds

/-- Modelled from the spec: `Functions::logExpSum`, the numerically stable
log-sum-exp of two values (a generic math utility declared out of scope by
the spec); mathematically it computes `log (exp x + exp y)`. -/
def logExpSum (x y : ℝ) : ℝ := Real.log (Real.exp x + Real.exp y)

/-- Iterated `logExpSum` over a list exactly as the loop at
`NestedSampler.cpp:238-243` computes it: start from element 0 and fold
`logExpSum` over the remaining elements. -/
def logExpSumList : List ℝ → ℝ
  | [] => 0
  | x :: xs => xs.foldl logExpSum x

/-- Minimum of a list of reals, the value returned by Eigen's `minCoeff`
on the `logLikelihood` array (`NestedSampler.cpp:212`).  Empty list gives
the junk value 0 (the C++ call would be undefined there). -/
def listMin : List ℝ → ℝ
  | [] => 0
  | [x] => x
  | x :: y :: ys => min x (listMin (y :: ys))

/-- Index of the first occurrence of the minimum, the index output of
Eigen's `minCoeff` (`NestedSampler.cpp:212`). -/
def idxOfMin : List ℝ → ℕ
  | [] => 0
  | [_] => 0
  | x :: y :: ys => if x ≤ listMin (y :: ys) then 0 else idxOfMin (y :: ys) + 1

/-- Maximum of a list of reals, as Eigen's `maxCoeff` on the marginal
distribution (`Results.cpp:164`). -/
def listMax : List ℝ → ℝ
  | [] => 0
  | [x] => x
  | x :: y :: ys => max x (listMax (y :: ys))

/-- Index of the first occurrence of the maximum, the index output of
Eigen's `maxCoeff` (`Results.cpp:164`). -/
def idxOfMax : List ℝ → ℕ
  | [] => 0
  | [_] => 0
  | x :: y :: ys => if listMax (y :: ys) ≤ x then 0 else idxOfMax (y :: ys) + 1

/-- Exact real value of `numeric_limits<double>::lowest()`, the minus
infinity sentinel used by the constructor for `logEvidence` and
`logCumulatedPriorMass` (`NestedSampler.cpp:35,40`). -/
def lowestDouble : ℝ := -((2 ^ 53 - 1) * 2 ^ 971)

/-- Scalar inputs of `NestedSampler::run` together with the live point
count `Nobjects` fixed at construction (`NestedSampler.cpp:119-120`).
`maxNdrawAttempts` is absorbed by the draw oracle, whose implementation is
outside the analysed sources. -/
structure NSConfig where
  Nobjects : ℕ
  maxRatioOfRemainderToActualEvidence : ℝ
  NinitialIterationsWithoutClustering : ℕ
  NiterationsWithSameClustering : ℕ

/-- State of `NestedSampler::run`: the live sample (a list of columns,
each column a point of the parameter space), the parallel log-likelihood
vector, the prior-mass/evidence accumulators, clustering data, and the
growing posterior record. -/
structure NSState where
  nestedSample : List (List ℝ)
  logLikelihood : List ℝ
  logWidthInPriorMass : ℝ
  logCumulatedPriorMass : ℝ
  logRemainingPriorMass : ℝ
  logEvidence : ℝ
  informationGain : ℝ
  logMeanLiveEvidence : ℝ
  logEvidenceError : ℝ
  Niterations : ℕ
  Nclusters : ℕ
  clusterIndices : List ℕ
  clusterSizes : List ℕ
  posteriorSample : List (List ℝ)
  logLikelihoodOfPosteriorSample : List ℝ
  logWeightOfPosteriorSample : List ℝ

/-- Modelled from the spec: the collaborators of the nested sampler whose
implementations are not among the analysed sources.
`draw` models `drawWithConstraint` (`NestedSampler.cpp:333`): given the
full sampler state it either fails (`none`, exhausted `maxNdrawAttempts`)
or returns the drawn point and its log-likelihood.  `cluster` models
`clusterer.cluster` (`NestedSampler.cpp:285`): it returns
`(Nclusters, clusterIndices, clusterSizes)`.  Both receive the whole
state, which subsumes their actual inputs (live sample, RNG state and
iteration count). -/
structure NSOracles where
  draw : NSState → Option (List ℝ × ℝ)
  cluster : NSState → ℕ × List ℕ × List ℕ

/-- Composition of the initial live sample from the priors' sub-blocks
(`NestedSampler.cpp:136-163`): each prior fills a block of rows for all
`Nobjects` columns; the blocks are stacked in insertion order, so column
`i` of the sample is the concatenation of the blocks' columns `i`. -/
def composeColumns (Nobjects : ℕ) (blocks : List (List (List ℝ))) : List (List ℝ) :=
  blocks.foldl (fun acc b => List.zipWith (fun c d => c ++ d) acc b)
    (List.replicate Nobjects ([] : List ℝ))

/-- State after the initialization phase of `run`
(constructor `NestedSampler.cpp:27-59` plus `NestedSampler.cpp:136-196`),
immediately before the first iteration of the nested loop.
`L` models `likelihood.logValue`; `blocks` are the matrices drawn by the
priors (both collaborators are outside the analysed sources).
`logMeanLiveEvidence` is an uninitialized local in the C++ code, modelled
as 0; the do-while loop always overwrites it before finalization reads it. -/
def nsInit (cfg : NSConfig) (L : List ℝ → ℝ) (blocks : List (List (List ℝ))) : NSState :=
  let sample := composeColumns cfg.Nobjects blocks
  { nestedSample := sample
    logLikelihood := sample.map L
    logWidthInPriorMass := Real.log (1 - Real.exp (-1 / (cfg.Nobjects : ℝ)))
    logCumulatedPriorMass :=
      logExpSum lowestDouble (Real.log (1 - Real.exp (-1 / (cfg.Nobjects : ℝ))))
    logRemainingPriorMass := 0
    logEvidence := lowestDouble
    informationGain := 0
    logMeanLiveEvidence := 0
    logEvidenceError := 0
    Niterations := 0
    Nclusters := 0
    clusterIndices := List.replicate cfg.Nobjects 0
    clusterSizes := []
    posteriorSample := []
    logLikelihoodOfPosteriorSample := []
    logWeightOfPosteriorSample := [] }

/-- First part of one iteration of the nested loop
(`NestedSampler.cpp:198-304`): locate the worst live point, update the
evidence and information-gain accumulators, append the worst point to the
posterior record, compute the mean live evidence, and update the cluster
assignment on the clustering cadence.  Everything up to (and excluding)
the constrained draw. -/
def nsStepPre (cfg : NSConfig) (orc : NSOracles) (s : NSState) : NSState :=
  let idx := idxOfMin s.logLikelihood
  let worstLiveLogLikelihood := listMin s.logLikelihood
  let logWeight := s.logWidthInPriorMass + worstLiveLogLikelihood
  let logEvidenceNew := logExpSum s.logEvidence logWeight
  let informationGainNew :=
    Real.exp (logWeight - logEvidenceNew) * worstLiveLogLikelihood
      + Real.exp (s.logEvidence - logEvidenceNew) * (s.informationGain + s.logEvidence)
      - logEvidenceNew
  let logMeanLikelihoodOfLivePoints :=
    logExpSumList s.logLikelihood - Real.log (cfg.Nobjects : ℝ)
  let lmle := logMeanLikelihoodOfLivePoints
      + (s.Niterations : ℝ) * (Real.log (cfg.Nobjects : ℝ) - Real.log ((cfg.Nobjects : ℝ) + 1))
  let cl :=
    if s.Niterations % cfg.NiterationsWithSameClustering = 0 then
      if s.Niterations < cfg.NinitialIterationsWithoutClustering then
        (1, List.replicate cfg.Nobjects 0, [cfg.Nobjects])
      else orc.cluster s
    else (s.Nclusters, s.clusterIndices, s.clusterSizes)
  { s with
    logEvidence := logEvidenceNew
    informationGain := informationGainNew
    logMeanLiveEvidence := lmle
    posteriorSample := s.posteriorSample ++ [s.nestedSample.getD idx []]
    logLikelihoodOfPosteriorSample :=
      s.logLikelihoodOfPosteriorSample ++ [worstLiveLogLikelihood]
    logWeightOfPosteriorSample := s.logWeightOfPosteriorSample ++ [logWeight]
    Nclusters := cl.1
    clusterIndices := cl.2.1
    clusterSizes := cl.2.2 }

/-- Second part of a successful iteration (`NestedSampler.cpp:347-378`):
replace the worst live point with the drawn one, increase the iteration
counter, shrink the prior-mass shell by `1/Nobjects`, and update the
cumulated and remaining prior-mass accumulators. -/
def nsStepSucc (cfg : NSConfig) (s1 : NSState) (idx : ℕ) (point : List ℝ) (l : ℝ) : NSState :=
  let logWidthNew := s1.logWidthInPriorMass - 1 / (cfg.Nobjects : ℝ)
  let logCum := logExpSum s1.logCumulatedPriorMass logWidthNew
  { s1 with
    nestedSample := s1.nestedSample.set idx point
    logLikelihood := s1.logLikelihood.set idx l
    Niterations := s1.Niterations + 1
    logWidthInPriorMass := logWidthNew
    logCumulatedPriorMass := logCum
    logRemainingPriorMass := Real.log (1 - Real.exp logCum) }

/-- One full iteration of the do-while loop of `run`
(`NestedSampler.cpp:198-380`).  Returns the state after the body and the
value of `nestedSamplingShouldContinue`: `false` when the constrained
draw fails (the `break` at line 343, leaving the live sample and the
iteration counter untouched), otherwise the Keeton stopping test
`ratioOfRemainderToActualEvidence > maxRatioOfRemainderToActualEvidence`
evaluated with this iteration's `logMeanLiveEvidence` and updated
`logEvidence` (lines 256 and 360). -/
def nsStep (cfg : NSConfig) (orc : NSOracles) (s : NSState) : NSState × Bool :=
  let s1 := nsStepPre cfg orc s
  match orc.draw s1 with
  | none => (s1, false)
  | some (point, l) =>
      (nsStepSucc cfg s1 (idxOfMin s.logLikelihood) point l,
       decide (cfg.maxRatioOfRemainderToActualEvidence <
         Real.exp (s1.logMeanLiveEvidence - s1.logEvidence)))

/-- Fuel-indexed unfolding of the do-while loop: run one body, then repeat
while the continuation flag holds and fuel remains. -/
def nsLoop (cfg : NSConfig) (orc : NSOracles) : ℕ → NSState → NSState
  | 0, s => s
  | fuel + 1, s =>
      let st := nsStep cfg orc s
      if st.2 then nsLoop cfg orc fuel st.1 else st.1

/-- Finalization of `run` (`NestedSampler.cpp:383-403`): append the whole
remaining live sample to the posterior record with weights
`logWidthInPriorMass + logLikelihood(i)`, set Skilling's error
`sqrt (|informationGain| / Nobjects)`, and fold the mean live evidence
into the total evidence. -/
def nsFinalize (cfg : NSConfig) (s : NSState) : NSState :=
  { s with
    posteriorSample := s.posteriorSample ++ s.nestedSample
    logWeightOfPosteriorSample := s.logWeightOfPosteriorSample
      ++ s.logLikelihood.map (fun l => s.logWidthInPriorMass + l)
    logLikelihoodOfPosteriorSample := s.logLikelihoodOfPosteriorSample ++ s.logLikelihood
    logEvidenceError := Real.sqrt (|s.informationGain| / (cfg.Nobjects : ℝ))
    logEvidence := logExpSum s.logMeanLiveEvidence s.logEvidence }

/-- The whole of `NestedSampler::run`: initialization, the do-while loop
(which always executes its body at least once), and finalization, which
is reached on both normal and premature termination. -/
def nsRun (cfg : NSConfig) (orc : NSOracles) (L : List ℝ → ℝ)
    (blocks : List (List (List ℝ))) (fuel : ℕ) : NSState :=
  nsFinalize cfg (nsLoop cfg orc (fuel + 1) (nsInit cfg L blocks))

/-- `Results::posteriorProbability` (`Results.cpp:70-84`): Bayes theorem
in the log domain, exponentiated and normalized by the sum. -/
def posteriorProbability (s : NSState) : List ℝ :=
  let p := List.zipWith (fun w l => Real.exp (w + l - s.logEvidence))
    s.logWeightOfPosteriorSample s.logLikelihoodOfPosteriorSample
  p.map (fun x => x / p.sum)

/-- Modelled from the spec: `Functions::sortElementsDouble`
(`Results.cpp:131`, a generic utility declared out of scope by the spec)
sorts the parameter values in increasing order carrying the marginal
distribution along; modelled as a stable insertion sort on (value,
probability) pairs keyed on the value. -/
def insertSorted (x : ℝ × ℝ) : List (ℝ × ℝ) → List (ℝ × ℝ)
  | [] => [x]
  | y :: ys => if x.1 ≤ y.1 then x :: y :: ys else y :: insertSorted x ys

/-- Modelled from the spec: see `insertSorted`. -/
def sortPairs : List (ℝ × ℝ) → List (ℝ × ℝ)
  | [] => []
  | x :: xs => insertSorted x (sortPairs xs)

/-- The sorted (parameter value, marginal probability) pairs for free
parameter `i` (`Results.cpp:124-131`). -/
def marginalPairs (s : NSState) (i : ℕ) : List (ℝ × ℝ) :=
  sortPairs ((s.posteriorSample.map (fun col => col.getD i 0)).zip (posteriorProbability s))

/-- Expectation of the marginal distribution (`Results.cpp:136`). -/
def marginalMean (s : NSState) (i : ℕ) : ℝ :=
  ((marginalPairs s i).map (fun q => q.1 * q.2)).sum

/-- Second moment of the marginal distribution (`Results.cpp:142`). -/
def marginalSecondMoment (s : NSState) (i : ℕ) : ℝ :=
  ((marginalPairs s i).map (fun q => (q.1 - marginalMean s i) ^ 2 * q.2)).sum

/-- The while loop computing the median (`Results.cpp:147-156`): walk the
sorted pairs accumulating probability; return the value at which the
cumulated probability first reaches 0.5. -/
def medianLoop : List (ℝ × ℝ) → ℝ → ℝ
  | [], _ => 0
  | (v, p) :: rest, acc => if acc + p < 0.5 then medianLoop rest (acc + p) else v

/-- Median of the marginal distribution (`Results.cpp:147-158`). -/
def marginalMedian (s : NSState) (i : ℕ) : ℝ :=
  medianLoop (marginalPairs s i) 0

/-- Mode of the marginal distribution: the parameter value at the first
index of maximal marginal probability (`Results.cpp:161-166`). -/
def marginalMode (s : NSState) (i : ℕ) : ℝ :=
  ((marginalPairs s i).map Prod.fst).getD (idxOfMax ((marginalPairs s i).map Prod.snd)) 0

/-- `Results::parameterEstimation` (`Results.cpp:112-307`): one row per
free parameter holding expectation, median, mode, second moment, and the
two credible-interval columns, which the code sets to 0 because the
credible-interval computation is commented out (`Results.cpp:174-302`).
The `credibleLevel` argument is consequently never read. -/
def parameterEstimation (s : NSState) (credibleLevel : ℝ) : List (List ℝ) :=
  (List.range (s.posteriorSample.headD []).length).map (fun i =>
    [marginalMean s i, marginalMedian s i, marginalMode s i,
     marginalSecondMoment s i, 0, 0])

/-! Helper lemmas about the list primitives. -/

lemma listMin_le : ∀ (l : List ℝ) (x : ℝ), x ∈ l → listMin l ≤ x
  | [], x, hx => absurd hx (List.not_mem_nil x)
  | [y], x, hx => by
      simp only [List.mem_singleton] at hx
      simp [listMin, hx]
  | y :: z :: zs, x, hx => by
      rcases List.mem_cons.mp hx with h | h
      · simpa [listMin, h] using min_le_left y (listMin (z :: zs))
      · calc listMin (y :: z :: zs) = min y (listMin (z :: zs)) := rfl
          _ ≤ listMin (z :: zs) := min_le_right _ _
          _ ≤ x := listMin_le (z :: zs) x h

lemma le_listMin : ∀ (l : List ℝ) (c : ℝ), l ≠ [] → (∀ x ∈ l, c ≤ x) → c ≤ listMin l
  | [], _, hne, _ => absurd rfl hne
  | [y], c, _, h => by simpa [listMin] using h y (by simp)
  | y :: z :: zs, c, _, h => by
      have h1 : c ≤ y := h y (by simp)
      have h2 : c ≤ listMin (z :: zs) :=
        le_listMin (z :: zs) c (by simp) (fun x hx => h x (List.mem_cons_of_mem _ hx))
      simpa [listMin] using le_min h1 h2

lemma getD_idxOfMin : ∀ (l : List ℝ), l ≠ [] → l.getD (idxOfMin l) 0 = listMin l
  | [], hne => absurd rfl hne
  | [y], _ => by simp [idxOfMin, listMin]
  | y :: z :: zs, _ => by
      have hmin : listMin (y :: z :: zs) = min y (listMin (z :: zs)) := rfl
      by_cases h : y ≤ listMin (z :: zs)
      · have hidx : idxOfMin (y :: z :: zs) = 0 := by simp [idxOfMin, h]
        rw [hidx, hmin, min_eq_left h]
        rfl
      · have ih := getD_idxOfMin (z :: zs) (by simp)
        have hm : listMin (z :: zs) ≤ y := le_of_lt (not_le.mp h)
        have hidx : idxOfMin (y :: z :: zs) = idxOfMin (z :: zs) + 1 := by
          simp [idxOfMin, h]
        rw [hidx, hmin, min_eq_right hm, List.getD_cons_succ]
        exact ih

lemma idxOfMin_lt_length : ∀ (l : List ℝ), l ≠ [] → idxOfMin l < l.length
  | [], hne => absurd rfl hne
  | [y], _ => by simp [idxOfMin]
  | y :: z :: zs, _ => by
      by_cases h : y ≤ listMin (z :: zs)
      · simp [idxOfMin, h]
      · have ih := idxOfMin_lt_length (z :: zs) (by simp)
        have hidx : idxOfMin (y :: z :: zs) = idxOfMin (z :: zs) + 1 := by
          simp [idxOfMin, h]
        rw [hidx, List.length_cons]
        omega

lemma chain_le_append_singleton : ∀ (l : List ℝ) (a : ℝ),
    List.Chain' (fun x y => x ≤ y) l → (∀ x ∈ l, x ≤ a) →
    List.Chain' (fun x y => x ≤ y) (l ++ [a])
  | [], a, _, _ => by simp
  | [x], a, _, h2 => by
      simpa using h2 x (by simp)
  | x :: y :: ys, a, h1, h2 => by
      rw [List.cons_append]
      have h1' := List.chain'_cons.mp h1
      have htail := chain_le_append_singleton (y :: ys) a h1'.2
        (fun z hz => h2 z (List.mem_cons_of_mem _ hz))
      rw [List.cons_append] at htail ⊢
      exact List.chain'_cons.mpr ⟨h1'.1, htail⟩

lemma foldl_logExpSum (xs : List ℝ) : ∀ a : ℝ,
    xs.foldl logExpSum a = Real.log (Real.exp a + (xs.map Real.exp).sum) := by
  induction xs with
  | nil => intro a; simp [Real.log_exp]
  | cons y ys ih =>
      intro a
      have hpos : (0 : ℝ) < Real.exp a + Real.exp y := by positivity
      rw [List.foldl_cons, ih]
      simp [logExpSum, Real.exp_log hpos, add_assoc]

/-- The iterated `logExpSum` of `NestedSampler.cpp:238-243` computes the
log of the sum of the exponentials of a nonempty list. -/
lemma logExpSumList_eq (l : List ℝ) (h : l ≠ []) :
    logExpSumList l = Real.log ((l.map Real.exp).sum) := by
  cases l with
  | nil => exact absurd rfl h
  | cons x xs => simp [logExpSumList, foldl_logExpSum]

/-! Unfolding lemmas for the two exits of the loop body. -/

lemma nsStep_none (cfg : NSConfig) (orc : NSOracles) (s : NSState)
    (h : orc.draw (nsStepPre cfg orc s) = none) :
    nsStep cfg orc s = (nsStepPre cfg orc s, false) := by
  simp only [nsStep]
  rw [h]

lemma nsStep_some (cfg : NSConfig) (orc : NSOracles) (s : NSState) (p : List ℝ) (l : ℝ)
    (h : orc.draw (nsStepPre cfg orc s) = some (p, l)) :
    nsStep cfg orc s =
      (nsStepSucc cfg (nsStepPre cfg orc s) (idxOfMin s.logLikelihood) p l,
       decide (cfg.maxRatioOfRemainderToActualEvidence <
         Real.exp ((nsStepPre cfg orc s).logMeanLiveEvidence
           - (nsStepPre cfg orc s).logEvidence))) := by
  simp only [nsStep]
  rw [h]

/-! Projection lemmas (all definitional) for the two halves of the loop
body, keyed for `simp`. -/

@[simp] lemma nsStepPre_nestedSample (cfg : NSConfig) (orc : NSOracles) (s : NSState) :
    (nsStepPre cfg orc s).nestedSample = s.nestedSample := rfl

@[simp] lemma nsStepPre_logLikelihood (cfg : NSConfig) (orc : NSOracles) (s : NSState) :
    (nsStepPre cfg orc s).logLikelihood = s.logLikelihood := rfl

@[simp] lemma nsStepPre_logWidthInPriorMass (cfg : NSConfig) (orc : NSOracles) (s : NSState) :
    (nsStepPre cfg orc s).logWidthInPriorMass = s.logWidthInPriorMass := rfl

@[simp] lemma nsStepPre_logCumulatedPriorMass (cfg : NSConfig) (orc : NSOracles) (s : NSState) :
    (nsStepPre cfg orc s).logCumulatedPriorMass = s.logCumulatedPriorMass := rfl

@[simp] lemma nsStepPre_logRemainingPriorMass (cfg : NSConfig) (orc : NSOracles) (s : NSState) :
    (nsStepPre cfg orc s).logRemainingPriorMass = s.logRemainingPriorMass := rfl

@[simp] lemma nsStepPre_Niterations (cfg : NSConfig) (orc : NSOracles) (s : NSState) :
    (nsStepPre cfg orc s).Niterations = s.Niterations := rfl

@[simp] lemma nsStepPre_logEvidence (cfg : NSConfig) (orc : NSOracles) (s : NSState) :
    (nsStepPre cfg orc s).logEvidence
      = logExpSum s.logEvidence (s.logWidthInPriorMass + listMin s.logLikelihood) := rfl

@[simp] lemma nsStepPre_informationGain (cfg : NSConfig) (orc : NSOracles) (s : NSState) :
    (nsStepPre cfg orc s).informationGain
      = Real.exp ((s.logWidthInPriorMass + listMin s.logLikelihood)
            - logExpSum s.logEvidence (s.logWidthInPriorMass + listMin s.logLikelihood))
          * listMin s.logLikelihood
        + Real.exp (s.logEvidence
            - logExpSum s.logEvidence (s.logWidthInPriorMass + listMin s.logLikelihood))
          * (s.informationGain + s.logEvidence)
        - logExpSum s.logEvidence (s.logWidthInPriorMass + listMin s.logLikelihood) := rfl

@[simp] lemma nsStepPre_logMeanLiveEvidence (cfg : NSConfig) (orc : NSOracles) (s : NSState) :
    (nsStepPre cfg orc s).logMeanLiveEvidence
      = logExpSumList s.logLikelihood - Real.log (cfg.Nobjects : ℝ)
        + (s.Niterations : ℝ)
          * (Real.log (cfg.Nobjects : ℝ) - Real.log ((cfg.Nobjects : ℝ) + 1)) := rfl

@[simp] lemma nsStepPre_logEvidenceError (cfg : NSConfig) (orc : NSOracles) (s : NSState) :
    (nsStepPre cfg orc s).logEvidenceError = s.logEvidenceError := rfl

@[simp] lemma nsStepPre_posteriorSample (cfg : NSConfig) (orc : NSOracles) (s : NSState) :
    (nsStepPre cfg orc s).posteriorSample
      = s.posteriorSample ++ [s.nestedSample.getD (idxOfMin s.logLikelihood) []] := rfl

@[simp] lemma nsStepPre_llPosterior (cfg : NSConfig) (orc : NSOracles) (s : NSState) :
    (nsStepPre cfg orc s).logLikelihoodOfPosteriorSample
      = s.logLikelihoodOfPosteriorSample ++ [listMin s.logLikelihood] := rfl

@[simp] lemma nsStepPre_lwPosterior (cfg : NSConfig) (orc : NSOracles) (s : NSState) :
    (nsStepPre cfg orc s).logWeightOfPosteriorSample
      = s.logWeightOfPosteriorSample
        ++ [s.logWidthInPriorMass + listMin s.logLikelihood] := rfl

@[simp] lemma nsStepSucc_nestedSample (cfg : NSConfig) (s1 : NSState) (idx : ℕ)
    (p : List ℝ) (l : ℝ) :
    (nsStepSucc cfg s1 idx p l).nestedSample = s1.nestedSample.set idx p := rfl

@[simp] lemma nsStepSucc_logLikelihood (cfg : NSConfig) (s1 : NSState) (idx : ℕ)
    (p : List ℝ) (l : ℝ) :
    (nsStepSucc cfg s1 idx p l).logLikelihood = s1.logLikelihood.set idx l := rfl

@[simp] lemma nsStepSucc_Niterations (cfg : NSConfig) (s1 : NSState) (idx : ℕ)
    (p : List ℝ) (l : ℝ) :
    (nsStepSucc cfg s1 idx p l).Niterations = s1.Niterations + 1 := rfl

@[simp] lemma nsStepSucc_logWidthInPriorMass (cfg : NSConfig) (s1 : NSState) (idx : ℕ)
    (p : List ℝ) (l : ℝ) :
    (nsStepSucc cfg s1 idx p l).logWidthInPriorMass
      = s1.logWidthInPriorMass - 1 / (cfg.Nobjects : ℝ) := rfl

@[simp] lemma nsStepSucc_logCumulatedPriorMass (cfg : NSConfig) (s1 : NSState) (idx : ℕ)
    (p : List ℝ) (l : ℝ) :
    (nsStepSucc cfg s1 idx p l).logCumulatedPriorMass
      = logExpSum s1.logCumulatedPriorMass
          (s1.logWidthInPriorMass - 1 / (cfg.Nobjects : ℝ)) := rfl

@[simp] lemma nsStepSucc_logRemainingPriorMass (cfg : NSConfig) (s1 : NSState) (idx : ℕ)
    (p : List ℝ) (l : ℝ) :
    (nsStepSucc cfg s1 idx p l).logRemainingPriorMass
      = Real.log (1 - Real.exp (logExpSum s1.logCumulatedPriorMass
          (s1.logWidthInPriorMass - 1 / (cfg.Nobjects : ℝ)))) := rfl

@[simp] lemma nsStepSucc_logEvidence (cfg : NSConfig) (s1 : NSState) (idx : ℕ)
    (p : List ℝ) (l : ℝ) :
    (nsStepSucc cfg s1 idx p l).logEvidence = s1.logEvidence := rfl

@[simp] lemma nsStepSucc_informationGain (cfg : NSConfig) (s1 : NSState) (idx : ℕ)
    (p : List ℝ) (l : ℝ) :
    (nsStepSucc cfg s1 idx p l).informationGain = s1.informationGain := rfl

@[simp] lemma nsStepSucc_logMeanLiveEvidence (cfg : NSConfig) (s1 : NSState) (idx : ℕ)
    (p : List ℝ) (l : ℝ) :
    (nsStepSucc cfg s1 idx p l).logMeanLiveEvidence = s1.logMeanLiveEvidence := rfl

@[simp] lemma nsStepSucc_posteriorSample (cfg : NSConfig) (s1 : NSState) (idx : ℕ)
    (p : List ℝ) (l : ℝ) :
    (nsStepSucc cfg s1 idx p l).posteriorSample = s1.posteriorSample := rfl

@[simp] lemma nsStepSucc_llPosterior (cfg : NSConfig) (s1 : NSState) (idx : ℕ)
    (p : List ℝ) (l : ℝ) :
    (nsStepSucc cfg s1 idx p l).logLikelihoodOfPosteriorSample
      = s1.logLikelihoodOfPosteriorSample := rfl

@[simp] lemma nsStepSucc_lwPosterior (cfg : NSConfig) (s1 : NSState) (idx : ℕ)
    (p : List ℝ) (l : ℝ) :
    (nsStepSucc cfg s1 idx p l).logWeightOfPosteriorSample
      = s1.logWeightOfPosteriorSample := rfl

/-! Concrete exemplar inputs used by the witness theorems. -/

def cfgEx : NSConfig := ⟨1, 0, 1, 1⟩

def stateEx : NSState where
  nestedSample := [[0]]
  logLikelihood := [0]
  logWidthInPriorMass := 0
  logCumulatedPriorMass := 0
  logRemainingPriorMass := 0
  logEvidence := 0
  informationGain := 0
  logMeanLiveEvidence := 0
  logEvidenceError := 0
  Niterations := 0
  Nclusters := 0
  clusterIndices := [0]
  clusterSizes := []
  posteriorSample := [[0]]
  logLikelihoodOfPosteriorSample := [0]
  logWeightOfPosteriorSample := [0]

def orcNone : NSOracles := ⟨fun _ => none, fun _ => (1, [0], [1])⟩

def orcSome : NSOracles := ⟨fun _ => some ([0], 1), fun _ => (1, [0], [1])⟩

/-! Claim theorems. -/

/-- C1: on the nested-sampling iteration that discards the worst live
point with log-likelihood `Lw` at shell width `w`, the accumulators are
updated as `logEvidence' = logsumexp(logEvidence, w + Lw)` and
`informationGain' = e^{(w+Lw)−logE'}·Lw + e^{logE−logE'}·(H + logE) −
logE'`, where the `logEvidence` inside the second term is the pre-update
value (`NestedSampler.cpp:216-222`). -/
theorem C1_evidence_information_update (cfg : NSConfig) (orc : NSOracles) (s : NSState)
    (hne : s.logLikelihood ≠ []) :
    ((nsStep cfg orc s).1.logEvidence
        = logExpSum s.logEvidence (s.logWidthInPriorMass + listMin s.logLikelihood))
    ∧ ((nsStep cfg orc s).1.informationGain
        = Real.exp ((s.logWidthInPriorMass + listMin s.logLikelihood)
              - (nsStep cfg orc s).1.logEvidence) * listMin s.logLikelihood
          + Real.exp (s.logEvidence - (nsStep cfg orc s).1.logEvidence)
              * (s.informationGain + s.logEvidence)
          - (nsStep cfg orc s).1.logEvidence) := by
  cases h : orc.draw (nsStepPre cfg orc s) with
  | none =>
      rw [nsStep_none cfg orc s h]
      exact ⟨rfl, rfl⟩
  | some pl =>
      obtain ⟨p, l⟩ := pl
      rw [nsStep_some cfg orc s p l h]
      exact ⟨rfl, rfl⟩

theorem C1_evidence_information_update_witness :
    stateEx.logLikelihood ≠ [] ∧
    (((nsStep cfgEx orcNone stateEx).1.logEvidence
        = logExpSum stateEx.logEvidence
            (stateEx.logWidthInPriorMass + listMin stateEx.logLikelihood))
      ∧ ((nsStep cfgEx orcNone stateEx).1.informationGain
        = Real.exp ((stateEx.logWidthInPriorMass + listMin stateEx.logLikelihood)
              - (nsStep cfgEx orcNone stateEx).1.logEvidence) * listMin stateEx.logLikelihood
          + Real.exp (stateEx.logEvidence - (nsStep cfgEx orcNone stateEx).1.logEvidence)
              * (stateEx.informationGain + stateEx.logEvidence)
          - (nsStep cfgEx orcNone stateEx).1.logEvidence)) :=
  ⟨by simp [stateEx],
   C1_evidence_information_update cfgEx orcNone stateEx (by simp [stateEx])⟩

/-- C2: each iteration computes `logMeanLiveEvidence` as the logsumexp of
the live log-likelihoods minus `log N` plus
`Niterations · (log N − log (N+1))` (`NestedSampler.cpp:238-250`), and the
loop continues into the next iteration iff the draw succeeded and
`e^{logMeanLiveEvidence − logEvidence} >
maxRatioOfRemainderToActualEvidence` with this iteration's values
(`NestedSampler.cpp:256,360` and the `break` at line 343). -/
theorem C2_mean_live_evidence_termination (cfg : NSConfig) (orc : NSOracles) (s : NSState)
    (hne : s.logLikelihood ≠ []) :
    ((nsStep cfg orc s).1.logMeanLiveEvidence
        = Real.log ((s.logLikelihood.map Real.exp).sum) - Real.log (cfg.Nobjects : ℝ)
          + (s.Niterations : ℝ)
            * (Real.log (cfg.Nobjects : ℝ) - Real.log ((cfg.Nobjects : ℝ) + 1)))
    ∧ ((nsStep cfg orc s).2 = true ↔
        ((orc.draw (nsStepPre cfg orc s)).isSome
          ∧ cfg.maxRatioOfRemainderToActualEvidence <
              Real.exp ((nsStep cfg orc s).1.logMeanLiveEvidence
                - (nsStep cfg orc s).1.logEvidence))) := by
  cases h : orc.draw (nsStepPre cfg orc s) with
  | none =>
      rw [nsStep_none cfg orc s h]
      constructor
      · rw [nsStepPre_logMeanLiveEvidence, logExpSumList_eq s.logLikelihood hne]
      · simp
  | some pl =>
      obtain ⟨p, l⟩ := pl
      rw [nsStep_some cfg orc s p l h]
      constructor
      · rw [nsStepSucc_logMeanLiveEvidence, nsStepPre_logMeanLiveEvidence,
          logExpSumList_eq s.logLikelihood hne]
      · simp

theorem C2_mean_live_evidence_termination_witness :
    stateEx.logLikelihood ≠ [] ∧
    (((nsStep cfgEx orcNone stateEx).1.logMeanLiveEvidence
        = Real.log ((stateEx.logLikelihood.map Real.exp).sum)
            - Real.log (cfgEx.Nobjects : ℝ)
          + (stateEx.Niterations : ℝ)
            * (Real.log (cfgEx.Nobjects : ℝ) - Real.log ((cfgEx.Nobjects : ℝ) + 1)))
      ∧ ((nsStep cfgEx orcNone stateEx).2 = true ↔
          ((orcNone.draw (nsStepPre cfgEx orcNone stateEx)).isSome
            ∧ cfgEx.maxRatioOfRemainderToActualEvidence <
                Real.exp ((nsStep cfgEx orcNone stateEx).1.logMeanLiveEvidence
                  - (nsStep cfgEx orcNone stateEx).1.logEvidence)))) :=
  ⟨by simp [stateEx],
   C2_mean_live_evidence_termination cfgEx orcNone stateEx (by simp [stateEx])⟩

/-- C3: finalization of `run` (reached on both normal and premature
termination) appends every remaining live point to the posterior arrays
with log-weight `logWidthInPriorMass + logLikelihood(i)`, sets
`logEvidenceError = sqrt (|informationGain| / Nobjects)`, and replaces
`logEvidence` by `logsumexp(logMeanLiveEvidence, logEvidence)`
(`NestedSampler.cpp:383-403`). -/
theorem C3_finalization (cfg : NSConfig) (orc : NSOracles) (L : List ℝ → ℝ)
    (blocks : List (List (List ℝ))) (fuel : ℕ) (s : NSState) :
    (nsFinalize cfg s).posteriorSample = s.posteriorSample ++ s.nestedSample
    ∧ (nsFinalize cfg s).logWeightOfPosteriorSample
        = s.logWeightOfPosteriorSample
          ++ s.logLikelihood.map (fun l => s.logWidthInPriorMass + l)
    ∧ (nsFinalize cfg s).logLikelihoodOfPosteriorSample
        = s.logLikelihoodOfPosteriorSample ++ s.logLikelihood
    ∧ (nsFinalize cfg s).logEvidenceError
        = Real.sqrt (|s.informationGain| / (cfg.Nobjects : ℝ))
    ∧ (nsFinalize cfg s).logEvidence = logExpSum s.logMeanLiveEvidence s.logEvidence
    ∧ nsRun cfg orc L blocks fuel
        = nsFinalize cfg (nsLoop cfg orc (fuel + 1) (nsInit cfg L blocks)) :=
  ⟨rfl, rfl, rfl, rfl, rfl, rfl⟩

/-- C4: when the constrained draw fails, the loop ends with the live
sample and the iteration counter untouched, and finalization is still
performed, so the partial posterior (including the record of the failing
iteration) extended with the remaining live points is preserved and the
evidence outputs are computed (`NestedSampler.cpp:336-344,383-403`). -/
theorem C4_draw_failure_graceful (cfg : NSConfig) (orc : NSOracles) (s : NSState)
    (h : orc.draw (nsStepPre cfg orc s) = none) :
    (nsStep cfg orc s).2 = false
    ∧ (nsStep cfg orc s).1.nestedSample = s.nestedSample
    ∧ (nsStep cfg orc s).1.logLikelihood = s.logLikelihood
    ∧ (nsStep cfg orc s).1.Niterations = s.Niterations
    ∧ (∀ fuel : ℕ, nsLoop cfg orc (fuel + 1) s = (nsStep cfg orc s).1)
    ∧ (nsFinalize cfg (nsStep cfg orc s).1).posteriorSample
        = (s.posteriorSample ++ [s.nestedSample.getD (idxOfMin s.logLikelihood) []])
          ++ s.nestedSample
    ∧ (nsFinalize cfg (nsStep cfg orc s).1).logEvidenceError
        = Real.sqrt (|(nsStep cfg orc s).1.informationGain| / (cfg.Nobjects : ℝ)) := by
  rw [nsStep_none cfg orc s h]
  refine ⟨rfl, rfl, rfl, rfl, ?_, rfl, rfl⟩
  intro fuel
  simp [nsLoop, nsStep_none cfg orc s h]

theorem C4_draw_failure_graceful_witness :
    orcNone.draw (nsStepPre cfgEx orcNone stateEx) = none ∧
    ((nsStep cfgEx orcNone stateEx).2 = false
    ∧ (nsStep cfgEx orcNone stateEx).1.nestedSample = stateEx.nestedSample
    ∧ (nsStep cfgEx orcNone stateEx).1.logLikelihood = stateEx.logLikelihood
    ∧ (nsStep cfgEx orcNone stateEx).1.Niterations = stateEx.Niterations
    ∧ (∀ fuel : ℕ, nsLoop cfgEx orcNone (fuel + 1) stateEx = (nsStep cfgEx orcNone stateEx).1)
    ∧ (nsFinalize cfgEx (nsStep cfgEx orcNone stateEx).1).posteriorSample
        = (stateEx.posteriorSample
            ++ [stateEx.nestedSample.getD (idxOfMin stateEx.logLikelihood) []])
          ++ stateEx.nestedSample
    ∧ (nsFinalize cfgEx (nsStep cfgEx orcNone stateEx).1).logEvidenceError
        = Real.sqrt (|(nsStep cfgEx orcNone stateEx).1.informationGain|
            / (cfgEx.Nobjects : ℝ))) :=
  ⟨rfl, C4_draw_failure_graceful cfgEx orcNone stateEx rfl⟩

/-- Helper: the exact prior-mass partition identity behind the 1e-10
tolerance of the claim, valid whenever the cumulated mass is below 1. -/
lemma exp_add_exp_log_one_sub {c : ℝ} (h : Real.exp c < 1) :
    Real.exp c + Real.exp (Real.log (1 - Real.exp c)) = 1 := by
  rw [Real.exp_log (by linarith)]
  ring

/-- C6: every successful iteration shrinks `logWidthInPriorMass` by
exactly `1/Nobjects` (the first iteration's width being
`log (1 − e^{−1/N₀})` from initialization), then sets
`logCumulatedPriorMass` to the logsumexp of its previous value and the
new width and `logRemainingPriorMass` to `log (1 − e^{logCumulated})`, so
that `e^{logCumulated} + e^{logRemaining} = 1` holds exactly (within the
claim's 1e-10) whenever the cumulated prior mass is below one
(`NestedSampler.cpp:369-378,177-180`). -/
theorem C6_prior_mass_accumulators (cfg : NSConfig) (orc : NSOracles) (s : NSState)
    (p : List ℝ) (l : ℝ) (L : List ℝ → ℝ) (blocks : List (List (List ℝ)))
    (h : orc.draw (nsStepPre cfg orc s) = some (p, l)) :
    (nsStep cfg orc s).1.logWidthInPriorMass
        = s.logWidthInPriorMass - 1 / (cfg.Nobjects : ℝ)
    ∧ (nsStep cfg orc s).1.logCumulatedPriorMass
        = logExpSum s.logCumulatedPriorMass ((nsStep cfg orc s).1.logWidthInPriorMass)
    ∧ (nsStep cfg orc s).1.logRemainingPriorMass
        = Real.log (1 - Real.exp ((nsStep cfg orc s).1.logCumulatedPriorMass))
    ∧ (Real.exp ((nsStep cfg orc s).1.logCumulatedPriorMass) < 1 →
        Real.exp ((nsStep cfg orc s).1.logCumulatedPriorMass)
          + Real.exp ((nsStep cfg orc s).1.logRemainingPriorMass) = 1)
    ∧ (nsInit cfg L blocks).logWidthInPriorMass
        = Real.log (1 - Real.exp (-1 / (cfg.Nobjects : ℝ))) := by
  rw [nsStep_some cfg orc s p l h]
  refine ⟨rfl, rfl, rfl, ?_, rfl⟩
  intro hlt
  exact exp_add_exp_log_one_sub hlt

theorem C6_prior_mass_accumulators_witness :
    orcSome.draw (nsStepPre cfgEx orcSome stateEx) = some ([0], 1) ∧
    ((nsStep cfgEx orcSome stateEx).1.logWidthInPriorMass
        = stateEx.logWidthInPriorMass - 1 / (cfgEx.Nobjects : ℝ)
    ∧ (nsStep cfgEx orcSome stateEx).1.logCumulatedPriorMass
        = logExpSum stateEx.logCumulatedPriorMass
            ((nsStep cfgEx orcSome stateEx).1.logWidthInPriorMass)
    ∧ (nsStep cfgEx orcSome stateEx).1.logRemainingPriorMass
        = Real.log (1 - Real.exp ((nsStep cfgEx orcSome stateEx).1.logCumulatedPriorMass))
    ∧ (Real.exp ((nsStep cfgEx orcSome stateEx).1.logCumulatedPriorMass) < 1 →
        Real.exp ((nsStep cfgEx orcSome stateEx).1.logCumulatedPriorMass)
          + Real.exp ((nsStep cfgEx orcSome stateEx).1.logRemainingPriorMass) = 1)
    ∧ (nsInit cfgEx (fun _ => 0) [[[0]]]).logWidthInPriorMass
        = Real.log (1 - Real.exp (-1 / (cfgEx.Nobjects : ℝ)))) :=
  ⟨rfl, C6_prior_mass_accumulators cfgEx orcSome stateEx [0] 1 (fun _ => 0) [[[0]]] rfl⟩

/-- C8: the clusterer is invoked only at cadence iterations
(`Niterations mod NiterationsWithSameClustering = 0`) that have passed
the warm-up (`Niterations ≥ NinitialIterationsWithoutClustering`); at
cadence iterations still in warm-up a single-cluster assignment is forced
(`Nclusters = 1`, all `Nobjects` indices 0, one cluster of size
`Nobjects`); at non-cadence iterations the previous assignment is reused
unchanged (`NestedSampler.cpp:259-287`). -/
theorem C8_clustering_cadence (cfg : NSConfig) (orc : NSOracles) (s : NSState)
    (hcad : 0 < cfg.NiterationsWithSameClustering) :
    (¬ (s.Niterations % cfg.NiterationsWithSameClustering = 0) →
      (nsStepPre cfg orc s).Nclusters = s.Nclusters
      ∧ (nsStepPre cfg orc s).clusterIndices = s.clusterIndices
      ∧ (nsStepPre cfg orc s).clusterSizes = s.clusterSizes)
    ∧ (s.Niterations % cfg.NiterationsWithSameClustering = 0 →
        s.Niterations < cfg.NinitialIterationsWithoutClustering →
      (nsStepPre cfg orc s).Nclusters = 1
      ∧ (nsStepPre cfg orc s).clusterIndices = List.replicate cfg.Nobjects 0
      ∧ (nsStepPre cfg orc s).clusterSizes = [cfg.Nobjects])
    ∧ (s.Niterations % cfg.NiterationsWithSameClustering = 0 →
        cfg.NinitialIterationsWithoutClustering ≤ s.Niterations →
      ((nsStepPre cfg orc s).Nclusters, (nsStepPre cfg orc s).clusterIndices,
        (nsStepPre cfg orc s).clusterSizes) = orc.cluster s) := by
  refine ⟨?_, ?_, ?_⟩
  · intro hmod
    refine ⟨?_, ?_, ?_⟩ <;> simp [nsStepPre, hmod]
  · intro hmod hlt
    refine ⟨?_, ?_, ?_⟩ <;> simp [nsStepPre, hmod, hlt]
  · intro hmod hge
    have hnlt : ¬ s.Niterations < cfg.NinitialIterationsWithoutClustering :=
      not_lt.mpr hge
    simp [nsStepPre, hmod, hnlt]

theorem C8_clustering_cadence_witness :
    0 < cfgEx.NiterationsWithSameClustering ∧
    ((¬ (stateEx.Niterations % cfgEx.NiterationsWithSameClustering = 0) →
      (nsStepPre cfgEx orcNone stateEx).Nclusters = stateEx.Nclusters
      ∧ (nsStepPre cfgEx orcNone stateEx).clusterIndices = stateEx.clusterIndices
      ∧ (nsStepPre cfgEx orcNone stateEx).clusterSizes = stateEx.clusterSizes)
    ∧ (stateEx.Niterations % cfgEx.NiterationsWithSameClustering = 0 →
        stateEx.Niterations < cfgEx.NinitialIterationsWithoutClustering →
      (nsStepPre cfgEx orcNone stateEx).Nclusters = 1
      ∧ (nsStepPre cfgEx orcNone stateEx).clusterIndices
          = List.replicate cfgEx.Nobjects 0
      ∧ (nsStepPre cfgEx orcNone stateEx).clusterSizes = [cfgEx.Nobjects])
    ∧ (stateEx.Niterations % cfgEx.NiterationsWithSameClustering = 0 →
        cfgEx.NinitialIterationsWithoutClustering ≤ stateEx.Niterations →
      ((nsStepPre cfgEx orcNone stateEx).Nclusters,
        (nsStepPre cfgEx orcNone stateEx).clusterIndices,
        (nsStepPre cfgEx orcNone stateEx).clusterSizes) = orcNone.cluster stateEx)) :=
  ⟨by decide, C8_clustering_cadence cfgEx orcNone stateEx (by decide)⟩

/-- Helper for C5: one loop body preserves the invariant that the
posterior log-likelihood record is a non-decreasing chain bounded by the
worst live log-likelihood, provided every successful draw beats the
current worst live point. -/
lemma nsStep_monotone_invariant (cfg : NSConfig) (orc : NSOracles) (s : NSState)
    (hdraw : ∀ (t : NSState) (p : List ℝ) (l : ℝ),
      orc.draw t = some (p, l) → listMin t.logLikelihood < l)
    (hne : s.logLikelihood ≠ [])
    (hchain : List.Chain' (fun x y => x ≤ y) s.logLikelihoodOfPosteriorSample)
    (hbound : ∀ x ∈ s.logLikelihoodOfPosteriorSample, x ≤ listMin s.logLikelihood) :
    (nsStep cfg orc s).1.logLikelihood ≠ []
    ∧ List.Chain' (fun x y => x ≤ y) (nsStep cfg orc s).1.logLikelihoodOfPosteriorSample
    ∧ ∀ x ∈ (nsStep cfg orc s).1.logLikelihoodOfPosteriorSample,
        x ≤ listMin (nsStep cfg orc s).1.logLikelihood := by
  cases h : orc.draw (nsStepPre cfg orc s) with
  | none =>
      rw [nsStep_none cfg orc s h]
      refine ⟨hne, ?_, ?_⟩
      · rw [nsStepPre_llPosterior]
        exact chain_le_append_singleton _ _ hchain hbound
      · intro x hx
        rw [nsStepPre_llPosterior] at hx
        rw [nsStepPre_logLikelihood]
        rcases List.mem_append.mp hx with hx | hx
        · exact hbound x hx
        · rw [List.mem_singleton.mp hx]
  | some pl =>
      obtain ⟨p, l⟩ := pl
      rw [nsStep_some cfg orc s p l h]
      have hl : listMin s.logLikelihood < l := by
        have hd := hdraw _ p l h
        rwa [nsStepPre_logLikelihood] at hd
      have hlen : s.logLikelihood.set (idxOfMin s.logLikelihood) l ≠ [] := by
        intro hcon
        apply hne
        have hlength := congrArg List.length hcon
        rw [List.length_set] at hlength
        exact List.length_eq_zero.mp hlength
      have hminle : listMin s.logLikelihood
          ≤ listMin (s.logLikelihood.set (idxOfMin s.logLikelihood) l) := by
        apply le_listMin _ _ hlen
        intro x hx
        rcases List.mem_or_eq_of_mem_set hx with hx | hx
        · exact listMin_le _ _ hx
        · rw [hx]; exact le_of_lt hl
      refine ⟨?_, ?_, ?_⟩
      · rw [nsStepSucc_logLikelihood, nsStepPre_logLikelihood]
        exact hlen
      · rw [nsStepSucc_llPosterior, nsStepPre_llPosterior]
        exact chain_le_append_singleton _ _ hchain hbound
      · intro x hx
        rw [nsStepSucc_llPosterior, nsStepPre_llPosterior] at hx
        rw [nsStepSucc_logLikelihood, nsStepPre_logLikelihood]
        rcases List.mem_append.mp hx with hx | hx
        · exact le_trans (hbound x hx) hminle
        · rw [List.mem_singleton.mp hx]; exact hminle

/-- Helper for C5: the invariant propagated through the fuelled loop. -/
lemma nsLoop_monotone (cfg : NSConfig) (orc : NSOracles)
    (hdraw : ∀ (t : NSState) (p : List ℝ) (l : ℝ),
      orc.draw t = some (p, l) → listMin t.logLikelihood < l) :
    ∀ (fuel : ℕ) (s : NSState), s.logLikelihood ≠ [] →
      List.Chain' (fun x y => x ≤ y) s.logLikelihoodOfPosteriorSample →
      (∀ x ∈ s.logLikelihoodOfPosteriorSample, x ≤ listMin s.logLikelihood) →
      List.Chain' (fun x y => x ≤ y)
        (nsLoop cfg orc fuel s).logLikelihoodOfPosteriorSample
  | 0, s, _, hchain, _ => hchain
  | fuel + 1, s, hne, hchain, hbound => by
      obtain ⟨h1, h2, h3⟩ := nsStep_monotone_invariant cfg orc s hdraw hne hchain hbound
      by_cases hc : (nsStep cfg orc s).2
      · have hstep : nsLoop cfg orc (fuel + 1) s = nsLoop cfg orc fuel (nsStep cfg orc s).1 := by
          simp [nsLoop, hc]
        rw [hstep]
        exact nsLoop_monotone cfg orc hdraw fuel _ h1 h2 h3
      · have hstep : nsLoop cfg orc (fuel + 1) s = (nsStep cfg orc s).1 := by
          simp [nsLoop, hc]
        rw [hstep]
        exact h2

/-- C5: under the hypothesis that every successful constrained draw
returns a point whose log-likelihood exceeds the current worst live
log-likelihood, the log-likelihood values appended to the posterior
record during the iteration loop of a run form a non-decreasing sequence
in insertion order, up to the final live batch appended at termination
(`NestedSampler.cpp:211-230,347-350`). -/
theorem C5_posterior_loglikelihood_monotone (cfg : NSConfig) (orc : NSOracles)
    (L : List ℝ → ℝ) (blocks : List (List (List ℝ))) (fuel : ℕ)
    (hdraw : ∀ (t : NSState) (p : List ℝ) (l : ℝ),
      orc.draw t = some (p, l) → listMin t.logLikelihood < l)
    (hne : (nsInit cfg L blocks).logLikelihood ≠ []) :
    List.Chain' (fun x y => x ≤ y)
      ((nsLoop cfg orc fuel (nsInit cfg L blocks)).logLikelihoodOfPosteriorSample) :=
  nsLoop_monotone cfg orc hdraw fuel _ hne
    (by rw [show (nsInit cfg L blocks).logLikelihoodOfPosteriorSample = [] from rfl]
        exact List.chain'_nil)
    (by rw [show (nsInit cfg L blocks).logLikelihoodOfPosteriorSample = [] from rfl]
        intro x hx
        exact absurd hx (List.not_mem_nil x))

theorem C5_posterior_loglikelihood_monotone_witness :
    (∀ (t : NSState) (p : List ℝ) (l : ℝ),
      orcNone.draw t = some (p, l) → listMin t.logLikelihood < l) ∧
    (nsInit cfgEx (fun _ => 0) [[[0]]]).logLikelihood ≠ [] ∧
    List.Chain' (fun x y => x ≤ y)
      ((nsLoop cfgEx orcNone 3
        (nsInit cfgEx (fun _ => 0) [[[0]]])).logLikelihoodOfPosteriorSample) :=
  ⟨fun t p l h => absurd h (by simp [orcNone]),
   by simp [nsInit, composeColumns, cfgEx],
   C5_posterior_loglikelihood_monotone cfgEx orcNone (fun _ => 0) [[[0]]] 3
     (fun t p l h => absurd h (by simp [orcNone]))
     (by simp [nsInit, composeColumns, cfgEx])⟩

/-- C10: if the draw fails, the record appended during the failing
iteration (at index `M`, the previous posterior length) and the copy of
the still-unreplaced worst live point inside the final live batch (at
index `M + 1 + iworst`) carry the same parameter column and the same
log-likelihood value, at two distinct indices of the returned posterior
arrays (`NestedSampler.cpp:225-230,336-344,383-393`). -/
theorem C10_draw_failure_duplicates_worst (cfg : NSConfig) (orc : NSOracles) (s : NSState)
    (h : orc.draw (nsStepPre cfg orc s) = none)
    (hne : s.logLikelihood ≠ []) :
    ((nsFinalize cfg (nsStep cfg orc s).1).logLikelihoodOfPosteriorSample.getD
        s.logLikelihoodOfPosteriorSample.length 0 = listMin s.logLikelihood)
    ∧ ((nsFinalize cfg (nsStep cfg orc s).1).logLikelihoodOfPosteriorSample.getD
        (s.logLikelihoodOfPosteriorSample.length + 1 + idxOfMin s.logLikelihood) 0
        = listMin s.logLikelihood)
    ∧ ((nsFinalize cfg (nsStep cfg orc s).1).posteriorSample.getD
        s.posteriorSample.length []
        = s.nestedSample.getD (idxOfMin s.logLikelihood) [])
    ∧ ((nsFinalize cfg (nsStep cfg orc s).1).posteriorSample.getD
        (s.posteriorSample.length + 1 + idxOfMin s.logLikelihood) []
        = s.nestedSample.getD (idxOfMin s.logLikelihood) [])
    ∧ s.logLikelihoodOfPosteriorSample.length
        < s.logLikelihoodOfPosteriorSample.length + 1 + idxOfMin s.logLikelihood
    ∧ (∀ fuel : ℕ,
        nsFinalize cfg (nsLoop cfg orc (fuel + 1) s)
          = nsFinalize cfg (nsStep cfg orc s).1) := by
  rw [nsStep_none cfg orc s h]
  have hfin1 : (nsFinalize cfg (nsStepPre cfg orc s)).logLikelihoodOfPosteriorSample
      = (s.logLikelihoodOfPosteriorSample ++ [listMin s.logLikelihood])
        ++ s.logLikelihood := by
    rw [show (nsFinalize cfg (nsStepPre cfg orc s)).logLikelihoodOfPosteriorSample
        = (nsStepPre cfg orc s).logLikelihoodOfPosteriorSample
          ++ (nsStepPre cfg orc s).logLikelihood from rfl,
      nsStepPre_llPosterior, nsStepPre_logLikelihood]
  have hfin2 : (nsFinalize cfg (nsStepPre cfg orc s)).posteriorSample
      = (s.posteriorSample ++ [s.nestedSample.getD (idxOfMin s.logLikelihood) []])
        ++ s.nestedSample := by
    rw [show (nsFinalize cfg (nsStepPre cfg orc s)).posteriorSample
        = (nsStepPre cfg orc s).posteriorSample
          ++ (nsStepPre cfg orc s).nestedSample from rfl,
      nsStepPre_posteriorSample, nsStepPre_nestedSample]
  refine ⟨?_, ?_, ?_, ?_, ?_, ?_⟩
  · rw [hfin1, List.append_assoc,
      List.getD_append_right _ _ _ _ le_rfl]
    simp
  · rw [hfin1, List.append_assoc,
      List.getD_append_right _ _ _ _ (by omega)]
    have hk : s.logLikelihoodOfPosteriorSample.length + 1 + idxOfMin s.logLikelihood
        - s.logLikelihoodOfPosteriorSample.length = idxOfMin s.logLikelihood + 1 := by
      omega
    rw [hk, List.singleton_append, List.getD_cons_succ]
    exact getD_idxOfMin s.logLikelihood hne
  · rw [hfin2, List.append_assoc,
      List.getD_append_right _ _ _ _ le_rfl]
    simp
  · rw [hfin2, List.append_assoc,
      List.getD_append_right _ _ _ _ (by omega)]
    have hk : s.posteriorSample.length + 1 + idxOfMin s.logLikelihood
        - s.posteriorSample.length = idxOfMin s.logLikelihood + 1 := by
      omega
    rw [hk, List.singleton_append, List.getD_cons_succ]
  · omega
  · intro fuel
    have hstep : nsLoop cfg orc (fuel + 1) s = (nsStep cfg orc s).1 := by
      simp [nsLoop, nsStep_none cfg orc s h]
    rw [hstep, nsStep_none cfg orc s h]

theorem C10_draw_failure_duplicates_worst_witness :
    orcNone.draw (nsStepPre cfgEx orcNone stateEx) = none ∧
    stateEx.logLikelihood ≠ [] ∧
    (((nsFinalize cfgEx (nsStep cfgEx orcNone stateEx).1).logLikelihoodOfPosteriorSample.getD
        stateEx.logLikelihoodOfPosteriorSample.length 0 = listMin stateEx.logLikelihood)
    ∧ ((nsFinalize cfgEx (nsStep cfgEx orcNone stateEx).1).logLikelihoodOfPosteriorSample.getD
        (stateEx.logLikelihoodOfPosteriorSample.length + 1 + idxOfMin stateEx.logLikelihood) 0
        = listMin stateEx.logLikelihood)
    ∧ ((nsFinalize cfgEx (nsStep cfgEx orcNone stateEx).1).posteriorSample.getD
        stateEx.posteriorSample.length []
        = stateEx.nestedSample.getD (idxOfMin stateEx.logLikelihood) [])
    ∧ ((nsFinalize cfgEx (nsStep cfgEx orcNone stateEx).1).posteriorSample.getD
        (stateEx.posteriorSample.length + 1 + idxOfMin stateEx.logLikelihood) []
        = stateEx.nestedSample.getD (idxOfMin stateEx.logLikelihood) [])
    ∧ stateEx.logLikelihoodOfPosteriorSample.length
        < stateEx.logLikelihoodOfPosteriorSample.length + 1 + idxOfMin stateEx.logLikelihood
    ∧ (∀ fuel : ℕ,
        nsFinalize cfgEx (nsLoop cfgEx orcNone (fuel + 1) stateEx)
          = nsFinalize cfgEx (nsStep cfgEx orcNone stateEx).1)) :=
  ⟨rfl, by simp [stateEx],
   C10_draw_failure_duplicates_worst cfgEx orcNone stateEx rfl (by simp [stateEx])⟩

/-- Formalization of claim C7 exactly as stated: after the initialization
phase of `run` and before the first loop iteration, the live sample is
composed from the priors' sub-blocks with `logLikelihood(i)` the
likelihood of column `i`, `logWidthInPriorMass = log (1 − e^{−1/N₀})`,
`logEvidence` is the minus-infinity sentinel, `informationGain = 0`,
`logCumulatedPriorMass` is the minus-infinity sentinel,
`Niterations = 0`, `Nclusters = 1`, and all cluster indices are 0. -/
def claimC7 (cfg : NSConfig) (L : List ℝ → ℝ) (blocks : List (List (List ℝ))) : Prop :=
  (nsInit cfg L blocks).nestedSample = composeColumns cfg.Nobjects blocks
  ∧ (nsInit cfg L blocks).logLikelihood = (composeColumns cfg.Nobjects blocks).map L
  ∧ (nsInit cfg L blocks).logWidthInPriorMass
      = Real.log (1 - Real.exp (-1 / (cfg.Nobjects : ℝ)))
  ∧ (nsInit cfg L blocks).logEvidence = lowestDouble
  ∧ (nsInit cfg L blocks).informationGain = 0
  ∧ (nsInit cfg L blocks).logCumulatedPriorMass = lowestDouble
  ∧ (nsInit cfg L blocks).Niterations = 0
  ∧ (nsInit cfg L blocks).Nclusters = 1
  ∧ (nsInit cfg L blocks).clusterIndices = List.replicate cfg.Nobjects 0

/-- C7 counterexample: at a concrete run (one live point, one
one-dimensional prior block, constant likelihood) the claimed
initialization state is false: the code declares `int Nclusters = 0`
(`NestedSampler.cpp:185`), not 1, and line 180 has already folded the
first shell width into `logCumulatedPriorMass` before the loop, so it no
longer equals the sentinel. -/
theorem C7_counterexample : ¬ claimC7 cfgEx (fun _ => 0) [[[0]]] := by
  intro h
  have hcl : (nsInit cfgEx (fun _ => 0) [[[0]]]).Nclusters = 1 :=
    h.2.2.2.2.2.2.2.1
  rw [show (nsInit cfgEx (fun _ => 0) [[[0]]]).Nclusters = 0 from rfl] at hcl
  exact absurd hcl (by decide)

/-- C7 (amended): the initialization state before the first loop
iteration of `run` is as claimed except that `Nclusters = 0`
(`NestedSampler.cpp:185`) and `logCumulatedPriorMass` already equals
`logsumexp(sentinel, logWidthInPriorMass)` because of the pre-loop update
at `NestedSampler.cpp:180`; moreover the pre-loop
`logCumulatedPriorMass` exceeds the sentinel, witnessing that it is no
longer the sentinel value. -/
theorem C7_initial_state_amended (cfg : NSConfig) (L : List ℝ → ℝ)
    (blocks : List (List (List ℝ))) :
    (nsInit cfg L blocks).nestedSample = composeColumns cfg.Nobjects blocks
    ∧ (nsInit cfg L blocks).logLikelihood = (composeColumns cfg.Nobjects blocks).map L
    ∧ (nsInit cfg L blocks).logWidthInPriorMass
        = Real.log (1 - Real.exp (-1 / (cfg.Nobjects : ℝ)))
    ∧ (nsInit cfg L blocks).logEvidence = lowestDouble
    ∧ (nsInit cfg L blocks).informationGain = 0
    ∧ (nsInit cfg L blocks).logCumulatedPriorMass
        = logExpSum lowestDouble (Real.log (1 - Real.exp (-1 / (cfg.Nobjects : ℝ))))
    ∧ (nsInit cfg L blocks).Niterations = 0
    ∧ (nsInit cfg L blocks).Nclusters = 0
    ∧ (nsInit cfg L blocks).clusterIndices = List.replicate cfg.Nobjects 0
    ∧ lowestDouble < (nsInit cfg L blocks).logCumulatedPriorMass :=
  ⟨rfl, rfl, rfl, rfl, rfl, rfl, rfl, rfl, rfl, by
    rw [show (nsInit cfg L blocks).logCumulatedPriorMass
        = logExpSum lowestDouble
            (Real.log (1 - Real.exp (-1 / (cfg.Nobjects : ℝ)))) from rfl]
    have h1 : Real.exp lowestDouble
        < Real.exp lowestDouble
          + Real.exp (Real.log (1 - Real.exp (-1 / (cfg.Nobjects : ℝ)))) := by
      have := Real.exp_pos (Real.log (1 - Real.exp (-1 / (cfg.Nobjects : ℝ))))
      linarith
    calc lowestDouble = Real.log (Real.exp lowestDouble) := (Real.log_exp _).symm
      _ < logExpSum lowestDouble
            (Real.log (1 - Real.exp (-1 / (cfg.Nobjects : ℝ)))) := by
          exact Real.log_lt_log (Real.exp_pos _) h1⟩

/-- C9: for every posterior sample and every `credibleLevel` argument,
`Results::parameterEstimation` returns one row of six entries per free
parameter whose first four entries are the expectation, median, mode and
second moment of that parameter's marginal distribution and whose last
two entries (the lower and upper credible intervals) are always 0, the
credible-interval computation being commented out; the result does not
depend on `credibleLevel` at all (`Results.cpp:112-307`). -/
theorem C9_parameter_estimation (s : NSState) (credibleLevel : ℝ) :
    (parameterEstimation s credibleLevel).length = (s.posteriorSample.headD []).length
    ∧ (∀ credibleLevel2 : ℝ,
        parameterEstimation s credibleLevel2 = parameterEstimation s credibleLevel)
    ∧ ∀ i, i < (s.posteriorSample.headD []).length →
        (parameterEstimation s credibleLevel).getD i []
          = [marginalMean s i, marginalMedian s i, marginalMode s i,
             marginalSecondMoment s i, 0, 0] := by
  refine ⟨?_, fun _ => rfl, ?_⟩
  · rw [parameterEstimation, List.length_map, List.length_range]
  · intro i hi
    rw [parameterEstimation, List.getD_eq_getElem?_getD, List.getElem?_map,
      List.getElem?_range hi]
    rfl

theorem C9_parameter_estimation_witness :
    0 < (stateEx.posteriorSample.headD []).length
    ∧ (parameterEstimation stateEx 1).getD 0 []
        = [marginalMean stateEx 0, marginalMedian stateEx 0, marginalMode stateEx 0,
           marginalSecondMoment stateEx 0, 0, 0] :=
  ⟨by decide,
   (C9_parameter_estimation stateEx 1).2.2 0 (by decide)⟩

end Diamonds

end
